import Mathlib

/-
  Verification of the bet settlement and bankroll ledger engine of the
  defensive-betting repository.  JavaScript numbers are embedded as exact
  rationals (ℚ); JavaScript objects become structures with Option fields for
  possibly-absent properties; fallible operations return Except.  String
  handling (leg ids such as "M1_HD") is embedded at the character-list level,
  mirroring the source's use of String.prototype.includes / split / replace /
  parseInt.
-/

namespace Betting

/-- An actual match result: home win, draw, or away win. -/
inductive Result
  | H
  | D
  | A
deriving DecidableEq, Repr

/-- A market selection code: single result (H, D, A) or double chance
(HD, AD, HA).  Closed enumeration, per the data model. -/
inductive Code
  | H
  | D
  | A
  | HD
  | AD
  | HA
deriving DecidableEq, Repr

/-- Serialization of a selection code, as it appears inside leg ids. -/
def codeStr : Code → String
  | .H => "H"
  | .D => "D"
  | .A => "A"
  | .HD => "HD"
  | .AD => "AD"
  | .HA => "HA"

/-- Character list of a serialized selection code. -/
def codeChars (c : Code) : List Char :=
  (codeStr c).data

/-- Does the pattern match at the head of the list?  (Building block for
substring containment, i.e. JS String.prototype.includes.) -/
def leadMatch : List Char → List Char → Bool
  | [], _ => true
  | _ :: _, [] => false
  | p :: ps, c :: cs => p == c && leadMatch ps cs

/-- Does the pattern occur as a contiguous run anywhere in the list? -/
def subIn (pat : List Char) : List Char → Bool
  | [] => leadMatch pat []
  | c :: cs => leadMatch pat (c :: cs) || subIn pat cs

/-- JS `s.includes(pat)`. -/
def strIncludes (s pat : String) : Bool :=
  subIn pat.data s.data

/-- Decimal digit character for a single digit (0-9). -/
def digitChar : Nat → Char
  | 0 => '0'
  | 1 => '1'
  | 2 => '2'
  | 3 => '3'
  | 4 => '4'
  | 5 => '5'
  | 6 => '6'
  | 7 => '7'
  | 8 => '8'
  | _ => '9'

/-- Decimal digit string of a natural number, most significant digit first. -/
def natDigits (n : Nat) : List Char :=
  if n < 10 then [digitChar n]
  else natDigits (n / 10) ++ [digitChar (n % 10)]
termination_by n
decreasing_by
  exact Nat.div_lt_self (by omega) (by omega)

/-- Character list of the serialized leg id "M{n}_{code}". -/
def legChars (n : Nat) (c : Code) : List Char :=
  'M' :: natDigits n ++ '_' :: codeChars c

/-- The serialized leg id "M{n}_{code}" (n is the 1-based match number). -/
def legId (n : Nat) (c : Code) : String :=
  String.mk (legChars n c)

/-- Numeric value of a digit character. -/
def charVal (c : Char) : Nat :=
  c.toNat - 48

/-- Value of a string of decimal digits. -/
def parseNatDigits (l : List Char) : Nat :=
  l.foldl (fun a c => a * 10 + charVal c) 0

/-- JS `parseInt` on a character list restricted to unsigned decimal input:
the leading run of digits is parsed; no digits at all yields NaN (none). -/
def jsParseInt (l : List Char) : Option Nat :=
  let ds := l.takeWhile Char.isDigit
  if ds.isEmpty then none else some (parseNatDigits ds)

/-- JS `s.replace("M", "")`: remove the first occurrence of 'M'. -/
def removeFirstM : List Char → List Char
  | [] => []
  | c :: cs => if c = 'M' then cs else c :: removeFirstM cs

/-- The match index extracted from a bet key, as in the source:
`parseInt(betKey.split("_")[0].replace("M", "")) - 1`.  The result is an
integer (it can be -1 in JS), or none when parseInt yields NaN. -/
def parseMatchIndex (key : String) : Option Int :=
  (jsParseInt (removeFirstM (key.data.takeWhile (fun c => c ≠ '_')))).map
    (fun n => (n : Int) - 1)

/-- Indexing a JS array by a possibly-NaN, possibly-negative integer:
out-of-range or NaN access yields undefined (none). -/
def resultAt (results : List Result) (i : Option Int) : Option Result :=
  match i with
  | none => none
  | some i => if 0 ≤ i then results[i.toNat]? else none

/-- A match's quoted odds, one optional decimal per selection code
(absent field = undefined in JS). -/
structure Match where
  home : Option ℚ
  draw : Option ℚ
  away : Option ℚ
  hd : Option ℚ
  ad : Option ℚ
  ha : Option ℚ
deriving DecidableEq, Repr

/-- JS `parseFloat(x) || 1.0` / `Number(x || 1.0)` on an optional odds field:
undefined (NaN) or 0 falls back to 1.0. -/
def jsOdds (o : Option ℚ) : ℚ :=
  match o with
  | none => 1
  | some v => if v = 0 then 1 else v

/-- Indexing a JS array of matches by a possibly-NaN / negative index. -/
def matchAt («matches» : List Match) (i : Option Int) : Option Match :=
  match i with
  | none => none
  | some i => if 0 ≤ i then «matches»[i.toNat]? else none

/-- db.js `checkIfBetWon(betKey, result)`: substring tests on the raw leg id
with exclusion checks for the double-chance codes; absent result loses. -/
def checkIfBetWon (betKey : String) (result : Option Result) : Bool :=
  match result with
  | none => false
  | some r =>
    if strIncludes betKey "_H" && !strIncludes betKey "_HD" &&
        !strIncludes betKey "_HA" then r == .H
    else if strIncludes betKey "_D" && !strIncludes betKey "_HD" &&
        !strIncludes betKey "_AD" then r == .D
    else if strIncludes betKey "_A" && !strIncludes betKey "_AD" &&
        !strIncludes betKey "_HA" then r == .A
    else if strIncludes betKey "_HD" then r == .H || r == .D
    else if strIncludes betKey "_AD" then r == .A || r == .D
    else if strIncludes betKey "_HA" then r == .H || r == .A
    else false

/-- MatchResultsEntry.jsx `checkLegWon(sel, result)`: coverage on the typed
selection code (equality tests, no substring matching); absent result loses. -/
def checkLegWon (sel : String) (result : Option Result) : Bool :=
  match result with
  | none => false
  | some r =>
    if sel = "H" then r == .H
    else if sel = "D" then r == .D
    else if sel = "A" then r == .A
    else if sel = "HD" then r == .H || r == .D
    else if sel = "AD" then r == .A || r == .D
    else if sel = "HA" then r == .H || r == .A
    else false

/-- db.js `getBetOdds(bet, betKey)`: re-parses the key, indexes the bet's
matches, and looks the odds up by the same substring ladder, defaulting to
1.0 for a missing match or missing/zero odds field. -/
def getBetOdds («matches» : List Match) (betKey : String) : ℚ :=
  match matchAt «matches» (parseMatchIndex betKey) with
  | none => 1
  | some m =>
    if strIncludes betKey "_H" && !strIncludes betKey "_HD" &&
        !strIncludes betKey "_HA" then jsOdds m.home
    else if strIncludes betKey "_D" && !strIncludes betKey "_HD" &&
        !strIncludes betKey "_AD" then jsOdds m.draw
    else if strIncludes betKey "_A" && !strIncludes betKey "_AD" &&
        !strIncludes betKey "_HA" then jsOdds m.away
    else if strIncludes betKey "_HD" then jsOdds m.hd
    else if strIncludes betKey "_AD" then jsOdds m.ad
    else if strIncludes betKey "_HA" then jsOdds m.ha
    else 1

/-- EnhancedCashout.jsx `getOddsForBet(match, betType)`: typed field map with
`Number(map[betType] || 1.0)`; missing match defaults to 1.0. -/
def getOddsForBet (m : Option Match) (betType : String) : ℚ :=
  match m with
  | none => 1
  | some mt =>
    if betType = "H" then jsOdds mt.home
    else if betType = "D" then jsOdds mt.draw
    else if betType = "A" then jsOdds mt.away
    else if betType = "HD" then jsOdds mt.hd
    else if betType = "AD" then jsOdds mt.ad
    else if betType = "HA" then jsOdds mt.ha
    else 1

/-- A bet history record, as stored by db.js (stakes is the JS object's
entry list; absent fields are none). -/
structure BetRecord where
  timestamp : String
  status : Option String
  applied : Bool
  resolved : Bool
  matchResults : Option (List Result)
  actualNet : Option ℚ
  cashoutAmount : Option ℚ
  stakes : List (String × ℚ)
  «matches» : List Match
deriving DecidableEq, Repr

/-- The pure net computation inside db.js `recordMatchResults`: start from
-totalStake and add stake * odds for every winning leg. -/
def recordMatchResultsNet (bet : BetRecord) (results : List Result) : ℚ :=
  let start : ℚ := -((bet.stakes.map Prod.snd).sum)
  bet.stakes.foldl
    (fun acc kv =>
      if checkIfBetWon kv.1 (resultAt results (parseMatchIndex kv.1)) then
        acc + kv.2 * getBetOdds bet.«matches» kv.1
      else acc)
    start

/-- Error raised by the db.js bet-history operations. -/
inductive DbError
  | betNotFound
deriving DecidableEq, Repr

/-- db.js `updateBetRecord` put: replace the record stored under the id. -/
def updateStoreRecord (store : List (Nat × BetRecord)) (betId : Nat)
    (r : BetRecord) : List (Nat × BetRecord) :=
  store.map (fun p => if p.1 = betId then (betId, r) else p)

/-- db.js `recordMatchResults(betId, matchResults)`: fails only when the bet
id is absent; otherwise recomputes the net and overwrites the record's
status/resolved/matchResults/actualNet, returning the net. -/
def recordMatchResults (store : List (Nat × BetRecord)) (betId : Nat)
    (results : List Result) : Except DbError (List (Nat × BetRecord) × ℚ) :=
  match store.lookup betId with
  | none => .error .betNotFound
  | some bet =>
    let net := recordMatchResultsNet bet results
    let updated : BetRecord :=
      { bet with
        status := some "resolved"
        resolved := true
        matchResults := some results
        actualNet := some net }
    .ok (updateStoreRecord store betId updated, net)

/-- Error raised by the bankroll ledger operations
(BankrollContext.jsx throws plain Errors with these two messages). -/
inductive LedgerError
  | invalidAmount
  | insufficientFunds
deriving DecidableEq, Repr

/-- BankrollContext.jsx `adjustBankroll(amount)`:
`Math.max(bankroll + amount, 0)` — never negative. -/
def adjustBankroll (bankroll amount : ℚ) : ℚ :=
  max (bankroll + amount) 0

/-- BankrollContext.jsx `setBalance(value)`:
`Math.max(parseFloat(value) || 0, 0)` on an already-numeric value. -/
def setBalance (value : ℚ) : ℚ :=
  max value 0

/-- BankrollContext.jsx `deductStake(totalStake)`: rejects non-positive
stakes, then insufficient bankroll, else adjusts by -totalStake.  (The
source guards the balance test with `bankroll != null`; the embedding takes
the loaded balance as the argument.) -/
def deductStake (bankroll totalStake : ℚ) : Except LedgerError ℚ :=
  if totalStake ≤ 0 then .error .invalidAmount
  else if bankroll < totalStake then .error .insufficientFunds
  else .ok (adjustBankroll bankroll (-totalStake))

/-- BankrollContext.jsx `addWinnings(amount)`: non-positive amounts are a
deliberate no-op (only a console warning), else adjust by amount. -/
def addWinnings (bankroll amount : ℚ) : ℚ :=
  if amount ≤ 0 then bankroll else adjustBankroll bankroll amount

/-- One ledger mutation, as exposed by BankrollContext.jsx. -/
inductive LedgerOp
  | adjust (amount : ℚ)
  | deduct (amount : ℚ)
  | credit (amount : ℚ)
  | setBal (value : ℚ)
deriving DecidableEq, Repr

/-- The balance observed after one ledger operation (a failed deduction
throws before mutating, leaving the balance as it was). -/
def applyOp (bankroll : ℚ) : LedgerOp → ℚ
  | .adjust a => adjustBankroll bankroll a
  | .deduct a =>
    match deductStake bankroll a with
    | .ok b => b
    | .error _ => bankroll
  | .credit a => addWinnings bankroll a
  | .setBal v => setBalance v

/-- The balance after a whole sequence of ledger operations. -/
def runOps (bankroll : ℚ) (ops : List LedgerOp) : ℚ :=
  ops.foldl applyOp bankroll

/-- The accumulator data on an accumulator bet record: the selections object
(match index to selection code string) and the combined odds. -/
structure AccData where
  selections : List (Nat × String)
  totalOdds : ℚ
deriving DecidableEq, Repr

/-- MatchResultsEntry.jsx `calculateAccumulatorNet(bet, matchResults)`:
`stakes` is bet.stakes and `acc` the bet.accumulatorData the caller
guarantees present.  Stake is `bet.stakes?.ACCA || 0`; the accumulator wins
only if every leg's selection covers its match's result. -/
def calculateAccumulatorNet (stakes : List (String × ℚ)) (acc : AccData)
    (results : List Result) : ℚ :=
  let stakeAmount : ℚ := (stakes.lookup "ACCA").getD 0
  let allWon := acc.selections.all (fun p => checkLegWon p.2 results[p.1]?)
  if allWon then stakeAmount * acc.totalOdds - stakeAmount
  else -stakeAmount

/-- One parsed entry of EnhancedCashout.jsx's `individualStakes`:
the leg's stake, its looked-up odds, and its selection-code string. -/
structure IndStake where
  stake : ℚ
  odds : ℚ
  betType : String
deriving DecidableEq, Repr

/-- The bookmaker live-cashout haircut (0.70 in the source). -/
def cashoutFactor : ℚ := 7 / 10

/-- A cashout scenario, parsed into its three variants (the source
distinguishes them via the truthiness of `scenario.custom` and
`scenario.partial`). -/
inductive CashoutMode
  | strategic (cashoutBets : List String)
  | fractionOf (f : ℚ)
  | custom
deriving DecidableEq, Repr

/-- EnhancedCashout.jsx `calculateScenarioValue(scenario)` over the parsed
`individualStakes` list: null for custom; fraction of the full live value
for partial; sum of the cashed-out legs' discounted payouts for strategic. -/
def calculateScenarioValue (stakes : List IndStake) :
    CashoutMode → Option ℚ
  | .custom => none
  | .fractionOf f =>
    let liveValue :=
      stakes.foldl (fun sum s => sum + s.stake * s.odds * cashoutFactor) 0
    some (liveValue * f)
  | .strategic cashoutBets =>
    some (stakes.foldl
      (fun value s =>
        if cashoutBets.contains s.betType then
          value + s.stake * s.odds * cashoutFactor
        else value)
      0)

/-- db.js `saveBetRecord(record)`: the stored record always gets a fresh
timestamp and forced applied/resolved/matchResults/actualNet/cashoutAmount
fields; status is `record.status || "calculated"`.  The current time is an
explicit argument. -/
def saveBetRecord (record : BetRecord) (now : String) : BetRecord :=
  { record with
    timestamp := now
    status := some
      (match record.status with
       | some s => if s = "" then "calculated" else s
       | none => "calculated")
    applied := false
    resolved := false
    matchResults := none
    actualNet := none
    cashoutAmount := none }

/-- db.js `importData` over the betHistory array: each imported record is
stored back through `saveBetRecord` (its old id stripped for
auto-increment). -/
def importBets (bets : List BetRecord) (now : String) : List BetRecord :=
  bets.map (fun b => saveBetRecord b now)

/-- The ledger effect of MatchResultsEntry.jsx `handleSubmitResults` for a
single-strategy bet: the net from `recordMatchResults` is credited via
`addWinnings` only when positive (otherwise only a toast is shown). -/
def handleSubmitResultsBalance (bankroll : ℚ) (bet : BetRecord)
    (results : List Result) : ℚ :=
  let net := recordMatchResultsNet bet results
  if 0 < net then addWinnings bankroll net else bankroll

/-- db.js `cashoutBet`'s net: cashoutAmount - totalStake. -/
def cashoutNet (bet : BetRecord) (cashoutAmount : ℚ) : ℚ :=
  cashoutAmount - (bet.stakes.map Prod.snd).sum

/-- The ledger effect of EnhancedCashout.jsx `executeCashout`: the net
returned by `cashoutBet` is credited via `addWinnings` when non-zero
(and `addWinnings` itself ignores non-positive amounts). -/
def executeCashoutBalance (bankroll : ℚ) (bet : BetRecord)
    (cashoutAmount : ℚ) : ℚ :=
  let net := cashoutNet bet cashoutAmount
  if net ≠ 0 then addWinnings bankroll net else bankroll

/-
  Lemmas about the character-level machinery: substring search on leg ids,
  digit strings, and the parseInt round trip.
-/

theorem subIn_cons_ne (p : List Char) (c : Char) (l : List Char)
    (hc : c ≠ '_') : subIn ('_' :: p) (c :: l) = subIn ('_' :: p) l := by
  have h : ('_' == c) = false := beq_eq_false_iff_ne.mpr (Ne.symm hc)
  simp [subIn, leadMatch, h]

theorem subIn_eq_false (p l : List Char) (hl : '_' ∉ l) :
    subIn ('_' :: p) l = false := by
  induction l with
  | nil => rfl
  | cons c cs ih =>
    have hc : c ≠ '_' := fun h => hl (h ▸ List.mem_cons_self c cs)
    rw [subIn_cons_ne p c cs hc]
    exact ih (fun h => hl (List.mem_cons_of_mem c h))

theorem subIn_append (p ds rest : List Char) (hds : '_' ∉ ds)
    (hrest : '_' ∉ rest) :
    subIn ('_' :: p) (ds ++ '_' :: rest) = leadMatch p rest := by
  induction ds with
  | nil =>
    have h : subIn ('_' :: p) rest = false := subIn_eq_false p rest hrest
    simp [subIn, leadMatch, h]
  | cons c cs ih =>
    have hc : c ≠ '_' := fun h => hds (h ▸ List.mem_cons_self c cs)
    rw [List.cons_append, subIn_cons_ne p c _ hc]
    exact ih (fun h => hds (List.mem_cons_of_mem c h))

theorem digitChar_isDigit (d : Nat) : (digitChar d).isDigit = true := by
  unfold digitChar
  split <;> decide

theorem mem_natDigits_isDigit (n : Nat) :
    ∀ c ∈ natDigits n, c.isDigit = true := by
  induction n using Nat.strong_induction_on with
  | _ n ih =>
    intro c hc
    rw [natDigits] at hc
    by_cases h : n < 10
    · rw [if_pos h] at hc
      have : c = digitChar n := List.mem_singleton.mp hc
      exact this ▸ digitChar_isDigit n
    · rw [if_neg h] at hc
      rcases List.mem_append.mp hc with h1 | h2
      · exact ih (n / 10) (Nat.div_lt_self (by omega) (by omega)) c h1
      · have : c = digitChar (n % 10) := List.mem_singleton.mp h2
        exact this ▸ digitChar_isDigit (n % 10)

theorem underscore_not_mem_natDigits (n : Nat) : '_' ∉ natDigits n :=
  fun h => absurd (mem_natDigits_isDigit n '_' h) (by decide)

theorem natDigits_ne_nil (n : Nat) : natDigits n ≠ [] := by
  rw [natDigits]
  by_cases h : n < 10 <;> simp [h]

theorem underscore_not_mem_codeChars (c : Code) : '_' ∉ codeChars c := by
  cases c <;> decide

theorem charVal_digitChar (d : Nat) (hd : d < 10) :
    charVal (digitChar d) = d := by
  interval_cases d <;> decide

theorem parseNatDigits_append_one (l : List Char) (c : Char) :
    parseNatDigits (l ++ [c]) = parseNatDigits l * 10 + charVal c := by
  unfold parseNatDigits
  rw [List.foldl_append]
  rfl

theorem parseNatDigits_natDigits (n : Nat) :
    parseNatDigits (natDigits n) = n := by
  induction n using Nat.strong_induction_on with
  | _ n ih =>
    rw [natDigits]
    by_cases h : n < 10
    · rw [if_pos h]
      show parseNatDigits [digitChar n] = n
      have hv := charVal_digitChar n h
      simp [parseNatDigits, hv]
    · rw [if_neg h, parseNatDigits_append_one,
        ih (n / 10) (Nat.div_lt_self (by omega) (by omega)),
        charVal_digitChar (n % 10) (Nat.mod_lt _ (by omega))]
      omega

theorem takeWhile_append_stop (p : Char → Bool) (ds : List Char) (r : Char)
    (rest : List Char) (h : ∀ c ∈ ds, p c = true) (hr : p r = false) :
    (ds ++ r :: rest).takeWhile p = ds := by
  induction ds with
  | nil => simp [List.takeWhile_cons, hr]
  | cons c cs ih =>
    have hc : p c = true := h c (List.mem_cons_self c cs)
    rw [List.cons_append, List.takeWhile_cons, if_pos hc]
    rw [ih (fun x hx => h x (List.mem_cons_of_mem c hx))]

theorem takeWhile_all (p : Char → Bool) (l : List Char)
    (h : ∀ c ∈ l, p c = true) : l.takeWhile p = l := by
  induction l with
  | nil => rfl
  | cons c cs ih =>
    have hc : p c = true := h c (List.mem_cons_self c cs)
    rw [List.takeWhile_cons, if_pos hc,
      ih (fun x hx => h x (List.mem_cons_of_mem c hx))]

theorem parseMatchIndex_legId (n : Nat) (c : Code) :
    parseMatchIndex (legId n c) = some ((n : Int) - 1) := by
  have htake :
      (legId n c).data.takeWhile (fun ch => ch ≠ '_') = 'M' :: natDigits n := by
    show (('M' :: natDigits n) ++ '_' :: codeChars c).takeWhile
        (fun ch => decide (ch ≠ '_')) = 'M' :: natDigits n
    refine takeWhile_append_stop _ _ _ _ ?_ (by decide)
    intro ch hch
    rcases List.mem_cons.mp hch with h1 | h2
    · subst h1; decide
    · have hdig := mem_natDigits_isDigit n ch h2
      have : ch ≠ '_' := by
        intro he
        rw [he] at hdig
        exact absurd hdig (by decide)
      simp [this]
  have hrm : removeFirstM ('M' :: natDigits n) = natDigits n := by
    simp [removeFirstM]
  have hparse : jsParseInt (natDigits n) = some n := by
    have hne : (natDigits n).isEmpty = false := by
      rcases hnil : natDigits n with _ | ⟨d, ds⟩
      · exact absurd hnil (natDigits_ne_nil n)
      · rfl
    unfold jsParseInt
    rw [takeWhile_all _ _ (mem_natDigits_isDigit n)]
    simp [hne, parseNatDigits_natDigits n]
  unfold parseMatchIndex
  rw [htake, hrm, hparse]
  rfl

theorem resultAt_legId (results : List Result) (n : Nat) (c : Code)
    (h : 1 ≤ n) :
    resultAt results (parseMatchIndex (legId n c)) = results[n - 1]? := by
  rw [parseMatchIndex_legId]
  show (if 0 ≤ (n : Int) - 1 then results[((n : Int) - 1).toNat]? else none) =
    results[n - 1]?
  rw [if_pos (by omega : (0 : Int) ≤ (n : Int) - 1)]
  have ht : ((n : Int) - 1).toNat = n - 1 := by omega
  rw [ht]

theorem matchAt_legId (ms : List Match) (n : Nat) (c : Code)
    (h : 1 ≤ n) :
    matchAt ms (parseMatchIndex (legId n c)) = ms[n - 1]? := by
  rw [parseMatchIndex_legId]
  show (if 0 ≤ (n : Int) - 1 then ms[((n : Int) - 1).toNat]? else none) =
    ms[n - 1]?
  rw [if_pos (by omega : (0 : Int) ≤ (n : Int) - 1)]
  have ht : ((n : Int) - 1).toNat = n - 1 := by omega
  rw [ht]

theorem strIncludes_legId (n : Nat) (c : Code) (p : List Char) :
    strIncludes (legId n c) (String.mk ('_' :: p)) =
      leadMatch p (codeChars c) := by
  show subIn ('_' :: p) (('M' :: natDigits n) ++ '_' :: codeChars c) = _
  have hds : '_' ∉ 'M' :: natDigits n := by
    intro h
    rcases List.mem_cons.mp h with h1 | h2
    · exact absurd h1 (by decide)
    · exact underscore_not_mem_natDigits n h2
  exact subIn_append p ('M' :: natDigits n) (codeChars c) hds
    (underscore_not_mem_codeChars c)

theorem includes_legId_H (n : Nat) (c : Code) :
    strIncludes (legId n c) "_H" = leadMatch ['H'] (codeChars c) :=
  strIncludes_legId n c ['H']

theorem includes_legId_D (n : Nat) (c : Code) :
    strIncludes (legId n c) "_D" = leadMatch ['D'] (codeChars c) :=
  strIncludes_legId n c ['D']

theorem includes_legId_A (n : Nat) (c : Code) :
    strIncludes (legId n c) "_A" = leadMatch ['A'] (codeChars c) :=
  strIncludes_legId n c ['A']

theorem includes_legId_HD (n : Nat) (c : Code) :
    strIncludes (legId n c) "_HD" = leadMatch ['H', 'D'] (codeChars c) :=
  strIncludes_legId n c ['H', 'D']

theorem includes_legId_AD (n : Nat) (c : Code) :
    strIncludes (legId n c) "_AD" = leadMatch ['A', 'D'] (codeChars c) :=
  strIncludes_legId n c ['A', 'D']

theorem includes_legId_HA (n : Nat) (c : Code) :
    strIncludes (legId n c) "_HA" = leadMatch ['H', 'A'] (codeChars c) :=
  strIncludes_legId n c ['H', 'A']

/-- On a well-formed serialized leg id, the substring-based coverage test of
db.js agrees with the typed coverage test of MatchResultsEntry.jsx. -/
theorem checkIfBetWon_legId (n : Nat) (c : Code) (o : Option Result) :
    checkIfBetWon (legId n c) o = checkLegWon (codeStr c) o := by
  cases o with
  | none => rfl
  | some r =>
    simp only [checkIfBetWon, checkLegWon, includes_legId_H, includes_legId_D,
      includes_legId_A, includes_legId_HD, includes_legId_AD,
      includes_legId_HA]
    cases c <;> cases r <;> decide

/-
  Claim theorems.
-/

/-- Claim C2: for every selection code in {H, D, A, HD, AD, HA} and every
result in {H, D, A}, the db.js coverage check on a leg with serialized id
"M{n}_{code}" returns true iff the code covers the result (H/D/A exactly
their own letter; HD, AD, HA their two letters), independently of the match
number n and of any other leg, and it returns false for every code when the
result is absent. -/
theorem c2_checkIfBetWon_coverage (n : Nat) (c : Code) (r : Result) :
    (checkIfBetWon (legId n c) (some r) = true ↔
      ((c = .H ∧ r = .H) ∨ (c = .D ∧ r = .D) ∨ (c = .A ∧ r = .A) ∨
        (c = .HD ∧ (r = .H ∨ r = .D)) ∨ (c = .AD ∧ (r = .A ∨ r = .D)) ∨
        (c = .HA ∧ (r = .H ∨ r = .A)))) ∧
    checkIfBetWon (legId n c) none = false := by
  refine ⟨?_, (checkIfBetWon_legId n c none).trans rfl⟩
  rw [checkIfBetWon_legId]
  cases c <;> cases r <;> decide

/-- Claim C3: deductStake fails with InsufficientFunds iff amount > balance
(failure returns no new balance, so the balance is untouched), amounts ≤ 0
fail with InvalidAmount before any mutation, and a successful deduction
returns exactly B - amount. -/
theorem c3_deductStake_contract (B amount : ℚ) (hB : 0 ≤ B) :
    (deductStake B amount = .error .insufficientFunds ↔ B < amount) ∧
    (amount ≤ 0 → deductStake B amount = .error .invalidAmount) ∧
    (∀ b : ℚ, deductStake B amount = .ok b → b = B - amount) := by
  unfold deductStake
  refine ⟨⟨?_, ?_⟩, ?_, ?_⟩
  · intro h
    by_cases h1 : amount ≤ 0
    · rw [if_pos h1] at h
      simp at h
    · rw [if_neg h1] at h
      by_cases h2 : B < amount
      · exact h2
      · rw [if_neg h2] at h
        simp at h
  · intro h2
    have h1 : ¬amount ≤ 0 := by linarith
    rw [if_neg h1, if_pos h2]
  · intro h1
    rw [if_pos h1]
  · intro b hb
    by_cases h1 : amount ≤ 0
    · rw [if_pos h1] at hb
      simp at hb
    · rw [if_neg h1] at hb
      by_cases h2 : B < amount
      · rw [if_pos h2] at hb
        simp at hb
      · rw [if_neg h2] at hb
        simp only [Except.ok.injEq] at hb
        rw [← hb]
        unfold adjustBankroll
        rw [max_eq_left (by linarith)]
        ring

/-- Witness for C3 at B = 100, amount = 10. -/
theorem c3_deductStake_contract_witness :
    (0 : ℚ) ≤ 100 ∧
      ((deductStake 100 10 = .error .insufficientFunds ↔ (100 : ℚ) < 10) ∧
        ((10 : ℚ) ≤ 0 → deductStake 100 10 = .error .invalidAmount) ∧
        (∀ b : ℚ, deductStake 100 10 = .ok b → b = 100 - 10)) :=
  ⟨by norm_num, c3_deductStake_contract 100 10 (by norm_num)⟩

/-- Claim C8: addWinnings with amount ≤ 0 is a deliberate no-op (never a
deduction), and with amount > 0 the new balance is B + amount. -/
theorem c8_addWinnings_contract (B amount : ℚ) (hB : 0 ≤ B) :
    (amount ≤ 0 → addWinnings B amount = B) ∧
    (0 < amount → addWinnings B amount = B + amount) := by
  constructor
  · intro h
    unfold addWinnings
    rw [if_pos h]
  · intro h
    unfold addWinnings adjustBankroll
    rw [if_neg (by linarith)]
    exact max_eq_left (by linarith)

/-- Witness for C8 at B = 90, amount = 90. -/
theorem c8_addWinnings_contract_witness :
    (0 : ℚ) ≤ 90 ∧
      (((90 : ℚ) ≤ 0 → addWinnings 90 90 = 90) ∧
        ((0 : ℚ) < 90 → addWinnings 90 90 = 90 + 90)) :=
  ⟨by norm_num, c8_addWinnings_contract 90 90 (by norm_num)⟩

theorem applyOp_nonneg (B : ℚ) (hB : 0 ≤ B) (op : LedgerOp) :
    0 ≤ applyOp B op := by
  cases op with
  | adjust a => exact le_max_right _ _
  | deduct a =>
    simp only [applyOp]
    rcases hd : deductStake B a with e | b
    · exact hB
    · have hb : 0 ≤ b := by
        unfold deductStake at hd
        by_cases h1 : a ≤ 0
        · rw [if_pos h1] at hd
          simp at hd
        · rw [if_neg h1] at hd
          by_cases h2 : B < a
          · rw [if_pos h2] at hd
            simp at hd
          · rw [if_neg h2] at hd
            simp only [Except.ok.injEq] at hd
            rw [← hd]
            exact le_max_right _ _
      exact hb
  | credit a =>
    simp only [applyOp]
    unfold addWinnings
    by_cases h : a ≤ 0
    · rw [if_pos h]
      exact hB
    · rw [if_neg h]
      exact le_max_right _ _
  | setBal v => exact le_max_right _ _

/-- Claim C9: starting from any non-negative balance, after every sequence
of ledger operations (adjust, deduct stake, add winnings, set balance) the
observed bankroll balance is still ≥ 0; mutations clamp at 0. -/
theorem c9_runOps_nonneg (B : ℚ) (ops : List LedgerOp) (hB : 0 ≤ B) :
    0 ≤ runOps B ops := by
  induction ops generalizing B with
  | nil => exact hB
  | cons op rest ih =>
    show 0 ≤ List.foldl applyOp (applyOp B op) rest
    exact ih (applyOp B op) (applyOp_nonneg B hB op)

/-- Witness for C9: a deposit-deduct-credit-overdraw sequence from 100. -/
theorem c9_runOps_nonneg_witness :
    (0 : ℚ) ≤ 100 ∧
      0 ≤ runOps 100 [.deduct 10, .credit 2, .adjust (-500), .setBal 7] :=
  ⟨by norm_num,
    c9_runOps_nonneg 100 [.deduct 10, .credit 2, .adjust (-500), .setBal 7]
      (by norm_num)⟩

theorem scenarioFold_all (stakes : List IndStake) (a : ℚ) :
    stakes.foldl (fun sum s => sum + s.stake * s.odds * cashoutFactor) a =
      a + (stakes.map (fun s => s.stake * s.odds * cashoutFactor)).sum := by
  induction stakes generalizing a with
  | nil => simp
  | cons s rest ih =>
    rw [List.foldl_cons, ih, List.map_cons, List.sum_cons]
    ring

theorem scenarioFold_strategic (cashoutBets : List String)
    (stakes : List IndStake) (a : ℚ) :
    stakes.foldl
        (fun value s =>
          if cashoutBets.contains s.betType then
            value + s.stake * s.odds * cashoutFactor
          else value)
        a =
      a + ((stakes.filter (fun s => cashoutBets.contains s.betType)).map
        (fun s => s.stake * s.odds * cashoutFactor)).sum := by
  induction stakes generalizing a with
  | nil => simp
  | cons s rest ih =>
    simp only [List.foldl_cons]
    by_cases hm : cashoutBets.contains s.betType = true
    · have hmem : s.betType ∈ cashoutBets := by simpa using hm
      have hf : List.filter (fun x => cashoutBets.contains x.betType)
          (s :: rest) =
          s :: List.filter (fun x => cashoutBets.contains x.betType) rest := by
        simp [List.filter_cons, hmem]
      rw [if_pos hm, ih, hf, List.map_cons, List.sum_cons]
      ring
    · have hmem : s.betType ∉ cashoutBets := by simpa using hm
      have hf : List.filter (fun x => cashoutBets.contains x.betType)
          (s :: rest) =
          List.filter (fun x => cashoutBets.contains x.betType) rest := by
        simp [List.filter_cons, hmem]
      rw [if_neg hm, ih, hf]

/-- Claim C7: the cashout estimator values a strategic scenario as the sum
over legs whose code is in the cashout subset of stake * odds * 0.70, a
partial scenario as f times that sum over all legs, and a custom scenario as
null (no automatic estimate). -/
theorem c7_calculateScenarioValue (stakes : List IndStake)
    (subset : List String) (f : ℚ) :
    calculateScenarioValue stakes (.strategic subset) =
      some (((stakes.filter (fun s => subset.contains s.betType)).map
        (fun s => s.stake * s.odds * cashoutFactor)).sum) ∧
    calculateScenarioValue stakes (.fractionOf f) =
      some (f *
        (stakes.map (fun s => s.stake * s.odds * cashoutFactor)).sum) ∧
    calculateScenarioValue stakes .custom = none := by
  refine ⟨?_, ?_, rfl⟩
  · simp only [calculateScenarioValue]
    rw [scenarioFold_strategic subset stakes 0, zero_add]
  · simp only [calculateScenarioValue]
    rw [scenarioFold_all stakes 0, zero_add, mul_comm]

/-- Claim C6: an accumulator with stake s and total odds T settles to
s * T - s when every leg's selection covers its match's result, and to -s as
soon as any leg fails to cover (a missing result for a leg makes it fail);
there is no partial credit. -/
theorem c6_calculateAccumulatorNet (stakes : List (String × ℚ))
    (sels : List (Nat × Code)) (T : ℚ) (results : List Result) (s : ℚ)
    (hs : stakes.lookup "ACCA" = some s) :
    ((∀ p ∈ sels, checkLegWon (codeStr p.2) results[p.1]? = true) →
      calculateAccumulatorNet stakes
        ⟨sels.map (fun p => (p.1, codeStr p.2)), T⟩ results = s * T - s) ∧
    ((∃ p ∈ sels, checkLegWon (codeStr p.2) results[p.1]? = false) →
      calculateAccumulatorNet stakes
        ⟨sels.map (fun p => (p.1, codeStr p.2)), T⟩ results = -s) := by
  constructor
  · intro h
    have hall : (sels.map (fun p => (p.1, codeStr p.2))).all
        (fun p => checkLegWon p.2 results[p.1]?) = true := by
      rw [List.all_eq_true]
      intro p hp
      rcases List.mem_map.mp hp with ⟨q, hq, rfl⟩
      exact h q hq
    simp only [calculateAccumulatorNet, hall, if_true, hs, Option.getD_some]
  · intro h
    rcases h with ⟨p, hp, hfail⟩
    have hall : (sels.map (fun p => (p.1, codeStr p.2))).all
        (fun p => checkLegWon p.2 results[p.1]?) = false := by
      rw [List.all_eq_false]
      exact ⟨(p.1, codeStr p.2), List.mem_map.mpr ⟨p, hp, rfl⟩, by
        simp [hfail]⟩
    simp only [calculateAccumulatorNet, hall, if_false, hs, Option.getD_some,
      Bool.false_eq_true]

/-- Witness for C6: scenario B's accumulator (stake 10, total odds 5,
legs M1_H and M2_A, results [H, D]: the second leg fails, net -10). -/
theorem c6_calculateAccumulatorNet_witness :
    ([("ACCA", (10 : ℚ))].lookup "ACCA" = some 10) ∧
      ((∀ p ∈ [((0 : Nat), Code.H), (1, Code.A)],
          checkLegWon (codeStr p.2) [Result.H, Result.D][p.1]? = true) →
        calculateAccumulatorNet [("ACCA", (10 : ℚ))]
          ⟨[((0 : Nat), Code.H), (1, Code.A)].map
            (fun p => (p.1, codeStr p.2)), 5⟩ [Result.H, Result.D] =
          10 * 5 - 10) ∧
      ((∃ p ∈ [((0 : Nat), Code.H), (1, Code.A)],
          checkLegWon (codeStr p.2) [Result.H, Result.D][p.1]? = false) →
        calculateAccumulatorNet [("ACCA", (10 : ℚ))]
          ⟨[((0 : Nat), Code.H), (1, Code.A)].map
            (fun p => (p.1, codeStr p.2)), 5⟩ [Result.H, Result.D] = -10) :=
  ⟨by decide,
    c6_calculateAccumulatorNet [("ACCA", (10 : ℚ))]
      [((0 : Nat), Code.H), (1, Code.A)] 5 [Result.H, Result.D] 10
      (by decide)⟩

/-- A typed leg of a single-strategy bet record: 1-based match number,
selection code, stake.  Serialized into the record's stake map as
"M{num}_{code}". -/
structure Leg where
  num : Nat
  code : Code
  stake : ℚ
deriving DecidableEq, Repr

/-- The bet record a single-strategy placement stores: stake map keyed by
serialized leg ids over the given matches. -/
def betOfLegs (legs : List Leg) (ms : List Match) : BetRecord :=
  { timestamp := ""
    status := some "placed"
    applied := false
    resolved := false
    matchResults := none
    actualNet := none
    cashoutAmount := none
    stakes := legs.map (fun l => (legId l.num l.code, l.stake))
    «matches» := ms }

theorem recordNet_foldl (ms : List Match) (results : List Result)
    (stakes : List (String × ℚ)) (a : ℚ) :
    stakes.foldl
        (fun acc kv =>
          if checkIfBetWon kv.1 (resultAt results (parseMatchIndex kv.1)) then
            acc + kv.2 * getBetOdds ms kv.1
          else acc)
        a =
      a + (stakes.map
        (fun kv =>
          if checkIfBetWon kv.1 (resultAt results (parseMatchIndex kv.1)) then
            kv.2 * getBetOdds ms kv.1
          else 0)).sum := by
  induction stakes generalizing a with
  | nil => simp
  | cons kv rest ih =>
    simp only [List.foldl_cons, List.map_cons, List.sum_cons]
    by_cases h : checkIfBetWon kv.1 (resultAt results (parseMatchIndex kv.1))
        = true
    · rw [if_pos h, if_pos h, ih]
      ring
    · rw [if_neg h, if_neg h, ih]
      ring

/-- On a well-formed leg id, db.js's substring-ladder odds lookup agrees
with the typed odds lookup (with its 1.0 defaults). -/
theorem getBetOdds_legId (ms : List Match) (n : Nat) (c : Code)
    (h : 1 ≤ n) :
    getBetOdds ms (legId n c) = getOddsForBet ms[n - 1]? (codeStr c) := by
  unfold getBetOdds
  rw [matchAt_legId ms n c h]
  rcases hm : ms[n - 1]? with _ | m
  · rfl
  · simp only [includes_legId_H, includes_legId_D, includes_legId_A,
      includes_legId_HD, includes_legId_AD, includes_legId_HA]
    cases c <;> simp [getOddsForBet, codeStr, codeChars, leadMatch]

/-- Claim C5: for a single-strategy bet record over well-formed legs and a
complete results tuple, the settlement net equals the sum over legs whose
selection covers the result at that leg's match index of stake * odds
(odds defaulting to 1.0 when unquoted), minus the total stake. -/
theorem c5_recordMatchResultsNet (legs : List Leg) (ms : List Match)
    (results : List Result)
    (hleg : ∀ l ∈ legs, 1 ≤ l.num ∧ l.num - 1 < ms.length)
    (hres : results.length = ms.length) :
    recordMatchResultsNet (betOfLegs legs ms) results =
      (legs.map
        (fun l =>
          if checkLegWon (codeStr l.code) results[l.num - 1]? then
            l.stake * getOddsForBet ms[l.num - 1]? (codeStr l.code)
          else 0)).sum -
        (legs.map Leg.stake).sum := by
  unfold recordMatchResultsNet betOfLegs
  rw [recordNet_foldl]
  rw [List.map_map, List.map_map]
  have hsnd : legs.map (Prod.snd ∘ fun l => (legId l.num l.code, l.stake)) =
      legs.map Leg.stake := by
    apply List.map_congr_left
    intro l _
    rfl
  rw [hsnd]
  have hterm : legs.map
      ((fun kv : String × ℚ =>
        if checkIfBetWon kv.1 (resultAt results (parseMatchIndex kv.1)) then
          kv.2 * getBetOdds ms kv.1
        else 0) ∘ fun l => (legId l.num l.code, l.stake)) =
      legs.map
        (fun l =>
          if checkLegWon (codeStr l.code) results[l.num - 1]? then
            l.stake * getOddsForBet ms[l.num - 1]? (codeStr l.code)
          else 0) := by
    apply List.map_congr_left
    intro l hl
    have h1 : 1 ≤ l.num := (hleg l hl).1
    show (if checkIfBetWon (legId l.num l.code)
        (resultAt results (parseMatchIndex (legId l.num l.code))) then
        l.stake * getBetOdds ms (legId l.num l.code)
      else 0) = _
    rw [resultAt_legId results l.num l.code h1,
      checkIfBetWon_legId l.num l.code,
      getBetOdds_legId ms l.num l.code h1]
  rw [hterm]
  ring

/-- Witness for C5: scenario A's record (legs M1_H 6 @ 2.0 and M1_D 4 @ 3.0
over one match) with actual result H. -/
theorem c5_recordMatchResultsNet_witness :
    (∀ l ∈ [Leg.mk 1 Code.H 6, Leg.mk 1 Code.D 4], 1 ≤ l.num ∧
      l.num - 1 < [Match.mk (some 2) (some 3) none none none none].length) ∧
    ([Result.H].length =
      [Match.mk (some 2) (some 3) none none none none].length) ∧
    recordMatchResultsNet
        (betOfLegs [Leg.mk 1 Code.H 6, Leg.mk 1 Code.D 4]
          [Match.mk (some 2) (some 3) none none none none]) [Result.H] =
      ([Leg.mk 1 Code.H 6, Leg.mk 1 Code.D 4].map
        (fun l =>
          if checkLegWon (codeStr l.code)
              [Result.H][l.num - 1]? then
            l.stake * getOddsForBet
              [Match.mk (some 2) (some 3) none none none none][l.num - 1]?
              (codeStr l.code)
          else 0)).sum -
        ([Leg.mk 1 Code.H 6, Leg.mk 1 Code.D 4].map Leg.stake).sum :=
  ⟨by decide, by decide,
    c5_recordMatchResultsNet [Leg.mk 1 Code.H 6, Leg.mk 1 Code.D 4]
      [Match.mk (some 2) (some 3) none none none none] [Result.H]
      (by decide) (by decide)⟩

theorem lookup_updateStoreRecord (store : List (Nat × BetRecord))
    (betId : Nat) (r bet : BetRecord) (h : store.lookup betId = some bet) :
    (updateStoreRecord store betId r).lookup betId = some r := by
  induction store with
  | nil => simp at h
  | cons p rest ih =>
    rcases p with ⟨k, v⟩
    by_cases hk : k = betId
    · have hf : (fun p : Nat × BetRecord =>
          if p.1 = betId then (betId, r) else p) (k, v) = (betId, r) := by
        simp [hk]
      simp only [updateStoreRecord, List.map_cons, hf]
      exact List.lookup_cons_self
    · have hb : (betId == k) = false :=
        beq_eq_false_iff_ne.mpr (fun he => hk he.symm)
      have h2 : rest.lookup betId = some bet := by
        rw [List.lookup_cons, hb] at h
        exact h
      have hf : (fun p : Nat × BetRecord =>
          if p.1 = betId then (betId, r) else p) (k, v) = (k, v) := by
        simp [hk]
      have h3 := ih h2
      simp only [updateStoreRecord, List.map_cons, hf] at h3 ⊢
      rw [List.lookup_cons, hb]
      exact h3

/-- Claim C4, amended: db.js recordMatchResults is not gated on the bet's
lifecycle state.  It fails (bet not found) iff the id is absent; on any
existing record — whatever its status, including already resolved or cashed
out — it recomputes the net and overwrites
status/resolved/matchResults/actualNet. -/
theorem c4_recordMatchResults_ungated (store : List (Nat × BetRecord))
    (betId : Nat) (results : List Result) :
    (recordMatchResults store betId results = .error .betNotFound ↔
      store.lookup betId = none) ∧
    (∀ bet, store.lookup betId = some bet →
      ∃ store2,
        recordMatchResults store betId results =
          .ok (store2, recordMatchResultsNet bet results) ∧
        store2.lookup betId = some
          { bet with
            status := some "resolved"
            resolved := true
            matchResults := some results
            actualNet := some (recordMatchResultsNet bet results) }) := by
  constructor
  · constructor
    · intro h
      rcases hl : store.lookup betId with _ | bet
      · rfl
      · unfold recordMatchResults at h
        rw [hl] at h
        simp at h
    · intro h
      unfold recordMatchResults
      rw [h]
  · intro bet h
    refine ⟨updateStoreRecord store betId
      { bet with
        status := some "resolved"
        resolved := true
        matchResults := some results
        actualNet := some (recordMatchResultsNet bet results) }, ?_, ?_⟩
    · unfold recordMatchResults
      rw [h]
    · exact lookup_updateStoreRecord store betId _ bet h

/-- Scenario A's single match: home odds 2.0, draw odds 3.0. -/
def mA : Match :=
  { home := some 2
    draw := some 3
    away := none
    hd := none
    ad := none
    ha := none }

/-- An already-resolved bet record (one leg M1_H, stake 6, resolved with
result H for a net of +2). -/
def betResolved : BetRecord :=
  { timestamp := "t0"
    status := some "resolved"
    applied := false
    resolved := true
    matchResults := some [Result.H]
    actualNet := some 2
    cashoutAmount := none
    stakes := [("M1_H", 6)]
    «matches» := [mA] }

/-- Counterexample to claim C4 as stated: invoking settlement on a record
that is already resolved (not in the placed state) does not fail with a
typed error; it succeeds and overwrites the record's result fields
(matchResults [H] ↦ [D], actualNet 2 ↦ -6). -/
theorem c4_counterexample :
    betResolved.status ≠ some "placed" ∧
    recordMatchResults [(1, betResolved)] 1 [Result.D] =
      .ok ([(1, { betResolved with
        matchResults := some [Result.D]
        actualNet := some (-6) })], -6) ∧
    ({ betResolved with
        matchResults := some [Result.D]
        actualNet := some (-6) } : BetRecord) ≠ betResolved := by
  have hc : checkIfBetWon "M1_H" (resultAt [Result.D] (parseMatchIndex "M1_H"))
      = false := by decide
  have hnet : recordMatchResultsNet betResolved [Result.D] = -6 := by
    simp [recordMatchResultsNet, betResolved, hc]
  refine ⟨by simp [betResolved], ?_, by simp [betResolved]⟩
  show Except.ok
      (updateStoreRecord [(1, betResolved)] 1
        { betResolved with
          status := some "resolved"
          resolved := true
          matchResults := some [Result.D]
          actualNet := some (recordMatchResultsNet betResolved [Result.D]) },
        recordMatchResultsNet betResolved [Result.D]) = _
  rw [hnet]
  simp [updateStoreRecord, betResolved]

/-- Witness for C4's amended theorem at a one-record store. -/
theorem c4_recordMatchResults_ungated_witness :
    ∃ store2,
      recordMatchResults [(1, betResolved)] 1 [Result.D] =
        .ok (store2, recordMatchResultsNet betResolved [Result.D]) ∧
      store2.lookup 1 = some
        { betResolved with
          status := some "resolved"
          resolved := true
          matchResults := some [Result.D]
          actualNet := some (recordMatchResultsNet betResolved [Result.D]) } :=
  (c4_recordMatchResults_ungated [(1, betResolved)] 1 [Result.D]).2
    betResolved rfl

/-- Scenario A's bet record: legs M1_H stake 6 and M1_D stake 4 over the
single match with odds H 2.0 / D 3.0 (totalStake 10). -/
def betA : BetRecord :=
  { timestamp := "t0"
    status := some "placed"
    applied := false
    resolved := false
    matchResults := none
    actualNet := none
    cashoutAmount := none
    stakes := [("M1_H", 6), ("M1_D", 4)]
    «matches» := [mA] }

/-- Claim C1 (code bug): in scenario A the code computes net 2 correctly,
but handleSubmitResults credits only the net (2) on top of the
already-deducted stake, ending at balance 92 — not the gross payout 12 that
the claim (and §4.5/§9 of the spec) require, which would end at 102. -/
theorem c1_scenarioA_credits_net_not_gross :
    (betA.stakes.map Prod.snd).sum = 10 ∧
    deductStake 100 10 = .ok 90 ∧
    recordMatchResultsNet betA [Result.H] = 2 ∧
    handleSubmitResultsBalance 90 betA [Result.H] = 92 ∧
    handleSubmitResultsBalance 90 betA [Result.H] ≠ 102 := by
  have hc1 : checkIfBetWon "M1_H" (resultAt [Result.H] (parseMatchIndex "M1_H"))
      = true := by decide
  have hc2 : checkIfBetWon "M1_D" (resultAt [Result.H] (parseMatchIndex "M1_D"))
      = false := by decide
  have hodds : getBetOdds [mA] "M1_H" = 2 := by decide
  have hnet : recordMatchResultsNet betA [Result.H] = 2 := by
    simp [recordMatchResultsNet, betA, hc1, hc2, hodds]
    norm_num
  have hbal : handleSubmitResultsBalance 90 betA [Result.H] = 92 := by
    simp [handleSubmitResultsBalance, hnet, addWinnings, adjustBankroll]
    norm_num
  refine ⟨?_, ?_, hnet, hbal, ?_⟩
  · simp [betA]
    norm_num
  · unfold deductStake adjustBankroll
    rw [if_neg (by norm_num), if_neg (by norm_num)]
    norm_num
  · rw [hbal]
    norm_num

/-- Claim C10: saveBetRecord always stores applied = false, resolved =
false, matchResults = actualNet = cashoutAmount = null and a fresh
timestamp, whatever the input held; only status survives (defaulting to
"calculated"), so a bet saved with status "placed" is stored unapplied, and
records re-imported through importData are stored back as unresolved. -/
theorem c10_saveBetRecord_resets (rec : BetRecord) (now : String)
    (bets : List BetRecord) :
    (saveBetRecord rec now).applied = false ∧
    (saveBetRecord rec now).resolved = false ∧
    (saveBetRecord rec now).matchResults = none ∧
    (saveBetRecord rec now).actualNet = none ∧
    (saveBetRecord rec now).cashoutAmount = none ∧
    (saveBetRecord rec now).timestamp = now ∧
    (rec.status = none → (saveBetRecord rec now).status = some "calculated") ∧
    (∀ st : String, rec.status = some st → st ≠ "" →
      (saveBetRecord rec now).status = some st) ∧
    (∀ b ∈ importBets bets now,
      b.resolved = false ∧ b.applied = false ∧ b.matchResults = none ∧
        b.actualNet = none ∧ b.cashoutAmount = none) := by
  refine ⟨rfl, rfl, rfl, rfl, rfl, rfl, ?_, ?_, ?_⟩
  · intro h
    simp [saveBetRecord, h]
  · intro st h hne
    simp [saveBetRecord, h, hne]
  · intro b hb
    rcases List.mem_map.mp hb with ⟨b0, _, rfl⟩
    exact ⟨rfl, rfl, rfl, rfl, rfl⟩

/-- Witness for C10: re-importing an already-resolved record stores it back
unresolved while keeping its "resolved" status string. -/
theorem c10_saveBetRecord_resets_witness :
    (saveBetRecord betResolved "T").resolved = false ∧
    (saveBetRecord betResolved "T").status = some "resolved" :=
  ⟨(c10_saveBetRecord_resets betResolved "T" []).2.1,
    (c10_saveBetRecord_resets betResolved "T" []).2.2.2.2.2.2.2.1 "resolved"
      rfl (by decide)⟩

end Betting
